import Mathlib

/-!
Shallow embedding of the `mahiru_net_admin_linux_helper` C sources
(`subprocess.c`, `capabilities.c`) and proofs about them.

Syscall outcomes (pipe allocation, fork, write, close, read, waitpid,
capability calls) are supplied by explicit oracles; each embedded function
returns, besides its C return value, the trace of observable events
(descriptor closes, the reap, the status classification, stores through the
caller's out parameters) that the corresponding C control path performs.
-/

namespace Mahiru

/-- The four pipe descriptors of `io_pipes_t` in subprocess.c. -/
inductive Fd where
  | parentOut
  | childIn
  | childOut
  | parentIn
deriving DecidableEq, Repr

/-- Abstract result of `waitpid`: the kernel reports either a normal exit
with a code (`WIFEXITED`) or termination by a signal (`WIFSIGNALED`). -/
inductive WaitStatus where
  | exited (code : Nat)
  | signaled (sig : Nat)
deriving DecidableEq, Repr

/-- The termination outcome as classified by the parent branch of `run`
(subprocess.c lines 255-266). -/
inductive TermOutcome where
  | exitedWith (code : Nat)
  | killedBySignal (sig : Nat)
deriving DecidableEq, Repr

/-- The classification the parent performs on the wait status:
`WIFEXITED` yields the exit code, `WIFSIGNALED` the signal number. -/
def classify : WaitStatus → TermOutcome
  | .exited c => .exitedWith c
  | .signaled s => .killedBySignal s

/-- Observable events of one `run` invocation. -/
inductive Event where
  | close (fd : Fd)
  | reap
  | classified (o : TermOutcome)
deriving DecidableEq, Repr

/-- Number of events in a trace satisfying a predicate. -/
def countEv (p : Event → Bool) (l : List Event) : Nat :=
  (l.filter p).length

def isReap : Event → Bool
  | .reap => true
  | _ => false

def isClose (fd : Fd) : Event → Bool
  | .close f => f = fd
  | _ => false

/-- Embedding of `create_pipes` (subprocess.c lines 25-50): allocate pipe 1
(parent_out/child_in), then pipe 2 (child_out/parent_in); if the second
allocation fails, close the first pipe's descriptors before returning -1.
Returns (success flag, close events performed). -/
def create_pipes (pipe1Ok pipe2Ok : Bool) : Bool × List Event :=
  if !pipe1Ok then (false, [])
  else if !pipe2Ok then (false, [.close .parentOut, .close .childIn])
  else (true, [])

/-- Oracle for the syscalls one `run` invocation performs in the parent. -/
structure RunOracle where
  pipe1Ok : Bool
  pipe2Ok : Bool
  forkOk : Bool
  writeOk : Bool
  closeOutOk : Bool
  readOk : Bool
  closeInOk : Bool
  status : WaitStatus
deriving DecidableEq, Repr

/-- What one `run` invocation returns and does: the C return value, whether
the final stores `*out_buf = out_buf_; *out_size = out_size_;` were executed,
and the event trace. -/
structure RunRet where
  ret : Int
  outSet : Bool
  events : List Event
deriving DecidableEq, Repr

/-- Embedding of `run` (subprocess.c lines 191-288), parent side.
`hasInput` is `in_buf != NULL`; `wantOut` is `out_buf != NULL`.

Control paths, exactly as in the C source:
* pipe creation fails → `goto exit_0`, return -1;
* fork fails → close all four descriptors, then fall through the
  `exit_2` and `exit_1` labels (closing parent_out and parent_in again);
* parent branch: `setup_pipes_for_parent` closes child_in and child_out
  (its close failures are only logged; it always returns 0);
  a `write_all` failure → `goto exit_2` (close parent_out, close parent_in);
  a failure of `close(parent_out)` → `goto exit_1` (close parent_in);
  a `read_all` failure (consulted only when `wantOut`) → `goto exit_1`;
  a failure of `close(parent_in)` → `goto exit_0`;
  otherwise `waitpid`, classify the status, store the out parameters
  unconditionally, and return 0. -/
def run (o : RunOracle) (hasInput wantOut : Bool) : RunRet :=
  match create_pipes o.pipe1Ok o.pipe2Ok with
  | (false, ev) => ⟨-1, false, ev⟩
  | (true, ev0) =>
    if !o.forkOk then
      ⟨-1, false, ev0 ++
        [.close .parentOut, .close .childIn, .close .childOut, .close .parentIn,
         .close .parentOut, .close .parentIn]⟩
    else
      let ev1 := ev0 ++ [.close .childIn, .close .childOut]
      if hasInput && !o.writeOk then
        ⟨-1, false, ev1 ++ [.close .parentOut, .close .parentIn]⟩
      else
        let ev2 := ev1 ++ [.close .parentOut]
        if !o.closeOutOk then
          ⟨-1, false, ev2 ++ [.close .parentIn]⟩
        else if wantOut && !o.readOk then
          ⟨-1, false, ev2 ++ [.close .parentIn]⟩
        else
          let ev3 := ev2 ++ [.close .parentIn]
          if !o.closeInOk then
            ⟨-1, false, ev3⟩
          else
            ⟨0, true, ev3 ++ [.reap, .classified (classify o.status)]⟩

/-- The part of `run`'s behaviour its caller can see: the C return value and
whether the out parameters were stored to. The event trace (stderr logging,
descriptor operations) is not part of the returned result. -/
def caller_view (r : RunRet) : Int × Bool :=
  (r.ret, r.outSet)

/-- Argument vector passed to `execve` by the child branch (lines 216-217):
when the caller's `argv` is NULL the code substitutes `&none`, a vector
holding only the NULL terminator, i.e. the empty argument list. -/
def child_argv (_filename : String) (argv : Option (List String)) : List String :=
  match argv with
  | none => []
  | some l => l

/-- Environment passed to `execve` by the child branch (lines 218-219):
a NULL `env` is replaced by `&none`, the empty environment. -/
def child_env (env : Option (List String)) : List String :=
  match env with
  | none => []
  | some l => l

/-- The argument vector as the specification describes it: "if the spec
supplies no arguments, synthesize an argument vector containing only the
program name and a terminator". Written from the spec's words, for
comparison with `child_argv`. -/
def spec_child_argv (filename : String) (argv : Option (List String)) : List String :=
  match argv with
  | none => [filename]
  | some l => l

/-- Outcome of the child branch of `run` (lines 211-224): the pipe setup may
fail (`exit(1)`), otherwise `execve` either replaces the image or fails, in
which case the child calls `exit(255)`. -/
inductive ChildOutcome where
  | replacedImage
  | exitedCode (c : Nat)
deriving DecidableEq, Repr

/-- Embedding of the child branch: `setupOk` is the outcome of
`setup_pipes_for_child`, `execOk` whether `execve` succeeds. -/
def child_branch (setupOk execOk : Bool) : ChildOutcome :=
  if !setupOk then .exitedCode 1
  else if execOk then .replacedImage
  else .exitedCode 255

/-- Result of the embedded `write_all` loop: the C function returns 0 (`ok`)
or -1 on a failed write (`ioError`); `oracleOut` is the model artefact of
running out of oracle entries while bytes remain. -/
inductive WAResult where
  | ok
  | ioError
  | oracleOut
deriving DecidableEq, Repr

/-- Embedding of `write_all` (subprocess.c lines 119-130). `oracle` lists the
successive return values of `write`; `data` is the not-yet-written suffix of
the buffer. Returns the bytes delivered to the descriptor (in order), the
number of `write` calls issued, and the result. A negative return makes the
loop return -1 at once; otherwise the data pointer advances and the length
shrinks by exactly the accepted count. -/
def write_all : List Int → List Nat → List Nat × Nat × WAResult
  | _, [] => ([], 0, .ok)
  | [], _ :: _ => ([], 0, .oracleOut)
  | w :: ws, d :: ds =>
    if w < 0 then ([], 1, .ioError)
    else
      let rest := write_all ws (List.drop w.toNat (d :: ds))
      (List.take w.toNat (d :: ds) ++ rest.1, rest.2.1 + 1, rest.2.2)

/-- Pointwise validity of a `write` oracle against a remaining length:
`write` never reports more bytes accepted than were requested. -/
def validWrites : List Int → Nat → Prop
  | [], _ => True
  | w :: ws, n => 0 ≤ w ∧ w.toNat ≤ n ∧ validWrites ws (n - w.toNat)

/-- Result of the embedded `read_all` loop: on success the total byte count,
the final allocated capacity, and the list of (positive) read sizes; -1 paths
are a failed `read` or a failed `realloc`; `stuck` is the model artefact of
oracle exhaustion. -/
inductive RAResult where
  | ok (total cap : Nat) (reads : List Nat)
  | ioError
  | stuck
deriving DecidableEq, Repr

/-- Embedding of the `read_all` loop body (subprocess.c lines 149-165).
`sched` lists the successive `read` return values (the actual count is
clamped to the requested `buf_size - total_read`, as `read` never returns
more than requested); `allocs` lists the outcomes of the successive `realloc`
calls (exhaustion counts as success). The buffer grows by the fixed 1024-byte
chunk exactly when `buf_size == total_read`; a zero read ends the loop with
the exact total; a negative read or failed growth returns the error. -/
def read_allGo : List Int → List Bool → Nat → Nat → RAResult
  | [], _, _, _ => .stuck
  | s :: ss, allocs, bufSize, total =>
    if bufSize = total then
      -- grow by one chunk; the requested read size is then
      -- (bufSize + 1024) - total = 1024
      if allocs.headD true = false then .ioError
      else if s < 0 then .ioError
      else if min s.toNat 1024 = 0 then .ok total (bufSize + 1024) []
      else
        match read_allGo ss allocs.tail (bufSize + 1024) (total + min s.toNat 1024) with
        | .ok t c r => .ok t c (min s.toNat 1024 :: r)
        | e => e
    else
      if s < 0 then .ioError
      else if min s.toNat (bufSize - total) = 0 then .ok total bufSize []
      else
        match read_allGo ss allocs bufSize (total + min s.toNat (bufSize - total)) with
        | .ok t c r => .ok t c (min s.toNat (bufSize - total) :: r)
        | e => e

/-- `read_all` starts with a NULL buffer: capacity 0, total 0. -/
def read_all (sched : List Int) (allocs : List Bool) : RAResult :=
  read_allGo sched allocs 0 0

/-- The caller-visible effect of one `read_all` call (lines 143-174): the C
return value and the final values of the caller's `*buffer` and `*size`
variables, which are assigned only on the success path (lines 167-168); on
error the partial buffer is freed and both variables are left unchanged.
The buffer variable is abstracted by the byte count it holds. -/
structure ReadAllCall where
  ret : Int
  bufOut : Option Nat
  sizeOut : Int
deriving DecidableEq, Repr

/-- One call to `read_all` with initial out-variable values `buf0`, `size0`. -/
def read_all_call (sched : List Int) (allocs : List Bool)
    (buf0 : Option Nat) (size0 : Int) : ReadAllCall :=
  match read_all sched allocs with
  | .ok total _ _ => ⟨0, some total, Int.ofNat total⟩
  | _ => ⟨-1, buf0, size0⟩

/-- A schedule in which every read delivers as much as requested: n full
1024-byte chunks, then one further byte, then end-of-file. The bytes the
child produces under this schedule total `1024 * n + 1`. -/
def fullReads (n : Nat) : List Int :=
  List.replicate n 1024 ++ [1, 0]

/-- The successive steps of `set_ambient_capabilities` (capabilities.c
lines 25-65): `cap_get_proc`, `cap_set_flag(CAP_EFFECTIVE)`,
`cap_set_flag(CAP_INHERITABLE)`, `cap_set_proc`, `cap_free`,
`prctl(PR_CAP_AMBIENT, PR_CAP_AMBIENT_RAISE, CAP_NET_ADMIN)`. -/
inductive CapStep where
  | query
  | setEff
  | setInh
  | commit
  | freeState
  | raiseAmbient
deriving DecidableEq, Repr

/-- The steps in the order the C function attempts them. -/
def capOrder : List CapStep :=
  [.query, .setEff, .setInh, .commit, .freeState, .raiseAmbient]

/-- Embedding of `set_ambient_capabilities` (capabilities.c lines 25-65).
Each boolean is the success of the corresponding call; the function attempts
the steps in order, returns -1 at the first failure without attempting any
later step (and without rollback), and returns 0 only when all succeed.
The returned list records the steps attempted, the failing one included. -/
def set_ambient_capabilities (g e i c f r : Bool) : Int × List CapStep :=
  if !g then (-1, [.query])
  else if !e then (-1, [.query, .setEff])
  else if !i then (-1, [.query, .setEff, .setInh])
  else if !c then (-1, [.query, .setEff, .setInh, .commit])
  else if !f then (-1, [.query, .setEff, .setInh, .commit, .freeState])
  else if !r then (-1, capOrder)
  else (0, capOrder)

/-! ## Theorems -/

/-- C1 (counterexample): two `run` invocations that differ only in how the
child terminated (exit code 0 versus exit code 3) return identical results
to the caller, so the termination outcome is not part of `run`'s successful
result, contrary to the claim. -/
theorem run_result_omits_termination_outcome :
    caller_view (run ⟨true, true, true, true, true, true, true, .exited 0⟩ true true) =
      caller_view (run ⟨true, true, true, true, true, true, true, .exited 3⟩ true true) ∧
    run ⟨true, true, true, true, true, true, true, .exited 0⟩ true true ≠
      run ⟨true, true, true, true, true, true, true, .exited 3⟩ true true ∧
    classify (.exited 0) ≠ classify (.exited 3) := by
  decide

/-- C1 (amended): when the fork and the parent's write, close and read
phases succeed, `run` blocks on a single wait for the child, classifies the
termination as exited-with-code or killed-by-signal (logging it to stderr),
and returns 0 with the out parameters stored; the classification appears
only in the event trace, not in the caller-visible result. -/
theorem run_success_waits_and_classifies (o : RunOracle) (hi wo : Bool)
    (h1 : o.pipe1Ok = true) (h2 : o.pipe2Ok = true) (h3 : o.forkOk = true)
    (h4 : o.writeOk = true) (h5 : o.closeOutOk = true) (h6 : o.readOk = true)
    (h7 : o.closeInOk = true) :
    countEv isReap (run o hi wo).events = 1 ∧
    Event.classified (classify o.status) ∈ (run o hi wo).events ∧
    (run o hi wo).ret = 0 ∧ (run o hi wo).outSet = true := by
  obtain ⟨p1, p2, fk, w, co, rd, ci, st⟩ := o
  simp only at h1 h2 h3 h4 h5 h6 h7
  subst h1 h2 h3 h4 h5 h6 h7
  cases hi <;> cases wo <;>
    simp [run, create_pipes, countEv, isReap, List.filter]

/-- C1 witness for `run_success_waits_and_classifies`. -/
theorem run_success_waits_and_classifies_witness :
    countEv isReap
        (run ⟨true, true, true, true, true, true, true, .exited 7⟩ true true).events = 1 ∧
    Event.classified (classify (.exited 7)) ∈
        (run ⟨true, true, true, true, true, true, true, .exited 7⟩ true true).events ∧
    (run ⟨true, true, true, true, true, true, true, .exited 7⟩ true true).ret = 0 ∧
    (run ⟨true, true, true, true, true, true, true, .exited 7⟩ true true).outSet = true :=
  run_success_waits_and_classifies ⟨true, true, true, true, true, true, true, .exited 7⟩
    true true rfl rfl rfl rfl rfl rfl rfl

/-- C2 (code bug, evaluated at the failing input): when `fork` fails, the
fork-error branch closes all four descriptors and then falls through the
`exit_2` and `exit_1` labels, so parent_out and parent_in are each closed a
second time — not exactly once as the claim states. -/
theorem run_fork_failure_double_close :
    (run ⟨true, true, false, true, true, true, true, .exited 0⟩ true true).ret = -1 ∧
    countEv (isClose .parentOut)
        (run ⟨true, true, false, true, true, true, true, .exited 0⟩ true true).events = 2 ∧
    countEv (isClose .parentIn)
        (run ⟨true, true, false, true, true, true, true, .exited 0⟩ true true).events = 2 ∧
    countEv (isClose .childIn)
        (run ⟨true, true, false, true, true, true, true, .exited 0⟩ true true).events = 1 ∧
    countEv (isClose .childOut)
        (run ⟨true, true, false, true, true, true, true, .exited 0⟩ true true).events = 1 ∧
    (create_pipes true false).2 = [.close .parentOut, .close .childIn] := by
  decide

/-- C3 (counterexample): when `write_all` fails, `run` goes to `exit_2` and
returns -1 without ever waiting for the child, contradicting the claim that
a reap happens on every return path of the parent branch. -/
theorem run_write_failure_skips_reap :
    (run ⟨true, true, true, false, true, true, true, .exited 0⟩ true true).ret = -1 ∧
    countEv isReap
        (run ⟨true, true, true, false, true, true, true, .exited 0⟩ true true).events = 0 := by
  decide

/-- C3 (amended): within the parent branch, `run` performs exactly one
blocking wait when it returns success, and no wait at all when it returns an
error — error paths leave the child unreaped. -/
theorem run_reap_count (o : RunOracle) (hi wo : Bool) :
    ((run o hi wo).ret = 0 → countEv isReap (run o hi wo).events = 1) ∧
    ((run o hi wo).ret ≠ 0 → countEv isReap (run o hi wo).events = 0) := by
  obtain ⟨p1, p2, fk, w, co, rd, ci, st⟩ := o
  cases p1 <;> cases p2 <;> cases fk <;> cases w <;> cases co <;> cases rd <;>
    cases ci <;> cases hi <;> cases wo <;>
    first
      | exact ⟨fun _ => rfl, fun h => (h rfl).elim⟩
      | exact ⟨fun h => absurd (show (-1 : Int) = 0 from h) (by decide), fun _ => rfl⟩

/-- C3 witness for `run_reap_count`. -/
theorem run_reap_count_witness :
    countEv isReap
        (run ⟨true, true, true, true, true, true, true, .exited 0⟩ false false).events = 1 :=
  (run_reap_count ⟨true, true, true, true, true, true, true, .exited 0⟩ false false).1 rfl

/-- C4 (code bug, evaluated at the failing input): with a NULL `out_buf`
(no capture requested) and the fork, write and close phases succeeding, the
success path still executes the unconditional stores
`*out_buf = out_buf_; *out_size = out_size_;`, writing through the null
pointers, contrary to the claim. -/
theorem run_stores_out_params_despite_null :
    (run ⟨true, true, true, true, true, true, true, .exited 0⟩ true false).ret = 0 ∧
    (run ⟨true, true, true, true, true, true, true, .exited 0⟩ true false).outSet = true := by
  decide

/-- C5 (counterexample): with a null argument vector the child passes the
empty vector (only the terminator) to `execve`, not the program name
followed by the terminator as the claim (and spec) state. -/
theorem child_argv_differs_from_spec :
    child_argv "/bin/cat" none ≠ spec_child_argv "/bin/cat" none ∧
    child_argv "/bin/cat" none = [] ∧
    spec_child_argv "/bin/cat" none = ["/bin/cat"] := by
  constructor
  · intro h
    simp [child_argv, spec_child_argv] at h
  · exact ⟨rfl, rfl⟩

/-- C5 (amended): when the caller supplies a null argument vector, the
vector passed to `execve` is empty (terminator only, the program name not
included); when the caller supplies a null environment, the environment
passed is empty (terminator only). -/
theorem child_argv_env_null_defaults (f : String) :
    child_argv f none = [] ∧ child_env none = [] :=
  ⟨rfl, rfl⟩

/-- C5 witness for `child_argv_env_null_defaults`. -/
theorem child_argv_env_null_defaults_witness :
    child_argv "/sbin/ip" none = [] ∧ child_env none = [] :=
  child_argv_env_null_defaults "/sbin/ip"

/-- C6: if `execve` fails in the child branch (after a successful pipe
setup), the child terminates immediately with exit code 255, and the
parent's classification of that wait status is "exited with code 255". -/
theorem exec_failure_exits_255 :
    child_branch true false = .exitedCode 255 ∧
    classify (.exited 255) = .exitedWith 255 ∧
    Event.classified (.exitedWith 255) ∈
      (run ⟨true, true, true, true, true, true, true, .exited 255⟩ false true).events := by
  decide

/-- Helper: when the `write_all` loop returns 0, the bytes delivered to the
descriptor are exactly the buffer, in order. -/
theorem write_all_ok_delivers (oracle : List Int) :
    ∀ data : List Nat,
      (write_all oracle data).2.2 = .ok → (write_all oracle data).1 = data := by
  induction oracle with
  | nil =>
    intro data h
    cases data with
    | nil => rfl
    | cons d ds => exact absurd h (by simp [write_all])
  | cons w ws ih =>
    intro data h
    cases data with
    | nil => rfl
    | cons d ds =>
      by_cases hw : w < 0
      · simp [write_all, hw] at h
      · simp only [write_all, if_neg hw] at h ⊢
        rw [ih _ h]
        exact List.take_append_drop _ _

/-- Helper: the first negative `write` return makes `write_all` return -1 at
once: the call count is the position of the failing call, and only the bytes
accepted by the earlier calls have been delivered. -/
theorem write_all_abort_of_neg (w : Int) (post : List Int) (hw : w < 0) :
    ∀ (pre : List Int) (data : List Nat),
      validWrites pre data.length → (pre.map Int.toNat).sum < data.length →
      write_all (pre ++ w :: post) data =
        (data.take ((pre.map Int.toNat).sum), pre.length + 1, .ioError) := by
  intro pre
  induction pre with
  | nil =>
    intro data _ hs
    cases data with
    | nil => simp at hs
    | cons d ds => simp [write_all, hw]
  | cons x xs ih =>
    intro data hv hs
    obtain ⟨hx0, hxle, hvrest⟩ := hv
    cases data with
    | nil => simp at hs
    | cons d ds =>
      have hxneg : ¬ x < 0 := by omega
      simp only [List.cons_append, write_all, if_neg hxneg, List.append_eq]
      rw [ih (List.drop x.toNat (d :: ds)) ?_ ?_]
      · refine Prod.ext ?_ (Prod.ext ?_ rfl)
        · show List.take x.toNat (d :: ds) ++
             (List.drop x.toNat (d :: ds)).take ((xs.map Int.toNat).sum) = _
          rw [List.map_cons, List.sum_cons, List.take_add]
        · show (xs.length + 1) + 1 = (x :: xs).length + 1
          simp
      · rw [List.length_drop]
        exact hvrest
      · rw [List.length_drop]
        simp only [List.map_cons, List.sum_cons] at hs
        omega

/-- C9: `write_all` loops issuing writes, advancing by exactly the number of
bytes each `write` accepted: it returns 0 only once the bytes delivered are
the whole buffer, in order; and the first negative `write` return makes it
return -1 immediately — the failing call is the last one issued and later
oracle entries are never consulted. -/
theorem write_all_spec :
    (∀ (oracle : List Int) (data : List Nat),
       (write_all oracle data).2.2 = .ok → (write_all oracle data).1 = data) ∧
    (∀ (pre : List Int) (w : Int) (post : List Int) (data : List Nat),
       validWrites pre data.length → (pre.map Int.toNat).sum < data.length →
       w < 0 →
       write_all (pre ++ w :: post) data =
         (data.take ((pre.map Int.toNat).sum), pre.length + 1, .ioError)) :=
  ⟨fun oracle data h => write_all_ok_delivers oracle data h,
   fun pre w post data hv hs hw => write_all_abort_of_neg w post hw pre data hv hs⟩

/-- C9 witness for `write_all_spec`: a two-byte buffer fully written in one
call, and a failing second call after one accepted byte. -/
theorem write_all_spec_witness :
    (write_all [2] [7, 8]).1 = [7, 8] ∧
    write_all [1, -1, 5] [5, 6] = ([5], 2, .ioError) := by
  constructor
  · exact write_all_spec.1 [2] [7, 8] (by decide)
  · have h := write_all_spec.2 [1] (-1) [5] [5, 6]
      (by simp [validWrites]) (by simp) (by decide)
    simpa using h

/-- Helper: invariants of the `read_all` loop. From any loop state in which
the total fits the buffer, the capacity is a whole number of 1024-byte
chunks and exceeds the total by at most one chunk, a successful exit yields
a total equal to the initial total plus the bytes of the recorded reads,
strictly below the final capacity, which is still a whole number of chunks
at most one chunk above the total. -/
theorem read_allGo_ok_spec (sched : List Int) :
    ∀ (allocs : List Bool) (bufSize total T C : Nat) (R : List Nat),
      total ≤ bufSize → bufSize % 1024 = 0 → bufSize ≤ total + 1024 →
      read_allGo sched allocs bufSize total = .ok T C R →
      T = total + R.sum ∧ T < C ∧ C % 1024 = 0 ∧ C ≤ T + 1024 := by
  induction sched with
  | nil =>
    intro allocs bufSize total T C R _ _ _ h
    exact absurd h (by simp [read_allGo])
  | cons s ss ih =>
    intro allocs bufSize total T C R hle hmod hub h
    rw [read_allGo] at h
    by_cases hg : bufSize = total
    · rw [if_pos hg] at h
      by_cases ha : allocs.headD true = false
      · rw [if_pos ha] at h; simp at h
      · rw [if_neg ha] at h
        by_cases hs : s < 0
        · rw [if_pos hs] at h; simp at h
        · rw [if_neg hs] at h
          by_cases hn : min s.toNat 1024 = 0
          · rw [if_pos hn] at h
            simp only [RAResult.ok.injEq] at h
            obtain ⟨h1, h2, h3⟩ := h
            subst h1 h2 h3
            refine ⟨by simp, by omega, by omega, by omega⟩
          · rw [if_neg hn] at h
            cases hrec : read_allGo ss allocs.tail (bufSize + 1024)
                (total + min s.toNat 1024) with
            | ok t c r =>
              rw [hrec] at h
              simp only [RAResult.ok.injEq] at h
              obtain ⟨h1, h2, h3⟩ := h
              subst h1 h2 h3
              have hmin : min s.toNat 1024 ≤ 1024 := min_le_right _ _
              obtain ⟨i1, i2, i3, i4⟩ :=
                ih allocs.tail (bufSize + 1024) (total + min s.toNat 1024) t c r
                  (by omega) (by omega) (by omega) hrec
              refine ⟨by simp [i1]; omega, i2, i3, by omega⟩
            | ioError => rw [hrec] at h; simp at h
            | stuck => rw [hrec] at h; simp at h
    · rw [if_neg hg] at h
      by_cases hs : s < 0
      · rw [if_pos hs] at h; simp at h
      · rw [if_neg hs] at h
        by_cases hn : min s.toNat (bufSize - total) = 0
        · rw [if_pos hn] at h
          simp only [RAResult.ok.injEq] at h
          obtain ⟨h1, h2, h3⟩ := h
          subst h1 h2 h3
          refine ⟨by simp, by omega, hmod, hub⟩
        · rw [if_neg hn] at h
          cases hrec : read_allGo ss allocs bufSize
              (total + min s.toNat (bufSize - total)) with
          | ok t c r =>
            rw [hrec] at h
            simp only [RAResult.ok.injEq] at h
            obtain ⟨h1, h2, h3⟩ := h
            subst h1 h2 h3
            have hmin : min s.toNat (bufSize - total) ≤ bufSize - total :=
              min_le_right _ _
            obtain ⟨i1, i2, i3, i4⟩ :=
              ih allocs bufSize (total + min s.toNat (bufSize - total)) t c r
                (by omega) hmod (by omega) hrec
            refine ⟨by simp [i1]; omega, i2, i3, by omega⟩
          | ioError => rw [hrec] at h; simp at h
          | stuck => rw [hrec] at h; simp at h

/-- Helper: under the all-full-reads schedule for `1024 * n + 1` bytes,
starting from an exhausted buffer (`bufSize = total = b`), the loop returns
exactly `b + 1024 * n + 1` bytes in a buffer grown to capacity
`b + 1024 * n + 1024`. -/
theorem read_allGo_fullReads (n : Nat) :
    ∀ b : Nat, read_allGo (fullReads n) [] b b =
      .ok (b + 1024 * n + 1) (b + 1024 * n + 1024) (List.replicate n 1024 ++ [1]) := by
  induction n with
  | zero =>
    intro b
    show read_allGo [(1 : Int), 0] [] b b = _
    rw [read_allGo, if_pos rfl]
    have h1 : ¬ ([] : List Bool).headD true = false := by simp
    have h2 : ¬ (1 : Int) < 0 := by decide
    have h3 : min (1 : Int).toNat 1024 = 1 := by decide
    rw [if_neg h1, if_neg h2, h3]
    have h5 : ¬ (1 : Nat) = 0 := by decide
    rw [if_neg h5, read_allGo]
    have h6 : ¬ b + 1024 = b + 1 := by omega
    rw [if_neg h6]
    have h7 : ¬ (0 : Int) < 0 := by decide
    rw [if_neg h7]
    have h8 : min (0 : Int).toNat (b + 1024 - (b + 1)) = 0 := by simp
    rw [if_pos h8]
    show RAResult.ok (b + 1) (b + 1024) [1] = _
    norm_num
  | succ m ih =>
    intro b
    show read_allGo ((1024 : Int) :: (List.replicate m 1024 ++ [1, 0])) [] b b = _
    rw [read_allGo, if_pos rfl]
    have h1 : ¬ ([] : List Bool).headD true = false := by simp
    have h2 : ¬ (1024 : Int) < 0 := by decide
    have h3 : min (1024 : Int).toNat 1024 = 1024 := by decide
    rw [if_neg h1, if_neg h2, h3]
    have h5 : ¬ (1024 : Nat) = 0 := by decide
    rw [if_neg h5]
    rw [show List.replicate m (1024 : Int) ++ [1, 0] = fullReads m from rfl,
        List.tail_nil, ih (b + 1024)]
    show RAResult.ok (b + 1024 + 1024 * m + 1) (b + 1024 + 1024 * m + 1024)
        (1024 :: (List.replicate m 1024 ++ [1])) = _
    simp only [RAResult.ok.injEq]
    refine ⟨by ring, by ring, ?_⟩
    simp [List.replicate_succ]

/-- C7: whenever the `read_all` loop succeeds (a read returned zero), the
size it returns is exactly the sum of the byte counts of the successful
reads — strictly less than the allocated capacity, which grew by whole
1024-byte chunks and only when the buffer was exhausted (so it never exceeds
the total by more than one chunk); in particular under full reads totalling
`1024 * n + 1` bytes, the returned size is exactly `1024 * n + 1` while the
capacity is `1024 * (n + 1)`. -/
theorem read_all_exact_size :
    (∀ (sched : List Int) (allocs : List Bool) (T C : Nat) (R : List Nat),
       read_all sched allocs = .ok T C R →
       T = R.sum ∧ T < C ∧ C % 1024 = 0 ∧ C ≤ T + 1024) ∧
    (∀ n : Nat, read_all (fullReads n) [] =
       .ok (1024 * n + 1) (1024 * n + 1024) (List.replicate n 1024 ++ [1])) := by
  constructor
  · intro sched allocs T C R h
    have := read_allGo_ok_spec sched allocs 0 0 T C R (by omega) (by omega)
      (by omega) h
    simpa using this
  · intro n
    have := read_allGo_fullReads n 0
    simpa [read_all] using this

/-- C7 witness for `read_all_exact_size`: a 5-byte read then end-of-file
yields size 5 with capacity 1024; the `n = 1` full-read schedule yields size
1025 with capacity 2048. -/
theorem read_all_exact_size_witness :
    ((5 : Nat) = [5].sum ∧ (5 : Nat) < 1024 ∧ (1024 : Nat) % 1024 = 0 ∧
      (1024 : Nat) ≤ 5 + 1024) ∧
    read_all (fullReads 1) [] = .ok 1025 2048 [1024, 1] := by
  constructor
  · exact read_all_exact_size.1 [5, 0] [] 5 1024 [5] (by decide)
  · have h := read_all_exact_size.2 1
    simpa using h

/-- Helper: if every read before it delivers at least one byte and no
`realloc` fails, a negative `read` return makes the loop return -1 from any
reachable state. -/
theorem read_allGo_neg_read (w : Int) (post : List Int) (hw : w < 0) :
    ∀ (pre : List Int) (allocs : List Bool) (bufSize total : Nat),
      (∀ x ∈ pre, 0 < x) → (∀ a ∈ allocs, a = true) → total ≤ bufSize →
      read_allGo (pre ++ w :: post) allocs bufSize total = .ioError := by
  intro pre
  induction pre with
  | nil =>
    intro allocs bufSize total _ hall hle
    show read_allGo (w :: post) allocs bufSize total = .ioError
    rw [read_allGo]
    have haOk : ¬ allocs.headD true = false := by
      cases allocs with
      | nil => simp
      | cons a rest => simp [hall a (by simp)]
    by_cases hg : bufSize = total
    · rw [if_pos hg, if_neg haOk, if_pos hw]
    · rw [if_neg hg, if_pos hw]
  | cons x xs ih =>
    intro allocs bufSize total hpos hall hle
    have hx : 0 < x := hpos x (by simp)
    have hxneg : ¬ x < 0 := by omega
    have hxnat : 1 ≤ x.toNat := by omega
    show read_allGo (x :: (xs ++ w :: post)) allocs bufSize total = .ioError
    rw [read_allGo]
    have haOk : ¬ allocs.headD true = false := by
      cases allocs with
      | nil => simp
      | cons a rest => simp [hall a (by simp)]
    by_cases hg : bufSize = total
    · rw [if_pos hg, if_neg haOk, if_neg hxneg]
      have hn : ¬ min x.toNat 1024 = 0 := by
        have : 1 ≤ min x.toNat 1024 := le_min hxnat (by omega)
        omega
      rw [if_neg hn]
      have htail : ∀ a ∈ allocs.tail, a = true :=
        fun a ha => hall a (List.mem_of_mem_tail ha)
      rw [ih allocs.tail (bufSize + 1024) (total + min x.toNat 1024)
        (fun y hy => hpos y (by simp [hy])) htail (by omega)]
    · rw [if_neg hg, if_neg hxneg]
      have hgap : 1 ≤ bufSize - total := by omega
      have hn : ¬ min x.toNat (bufSize - total) = 0 := by
        have : 1 ≤ min x.toNat (bufSize - total) := le_min hxnat hgap
        omega
      rw [if_neg hn]
      have hmin : min x.toNat (bufSize - total) ≤ bufSize - total :=
        min_le_right _ _
      rw [ih allocs bufSize (total + min x.toNat (bufSize - total))
        (fun y hy => hpos y (by simp [hy])) hall (by omega)]

/-- C8: if a `read` inside `read_all` fails (and likewise if the very first
buffer growth fails), `read_all` returns -1; and whenever it returns -1 the
partially read data is discarded and the caller's `*buffer` and `*size`
variables keep their previous values — partial output is never returned with
an error. -/
theorem read_all_error_discards :
    (∀ (sched : List Int) (allocs : List Bool) (buf0 : Option Nat) (size0 : Int),
       read_all sched allocs = .ioError →
       read_all_call sched allocs buf0 size0 = ⟨-1, buf0, size0⟩) ∧
    (∀ (pre : List Int) (w : Int) (post : List Int) (allocs : List Bool),
       (∀ x ∈ pre, 0 < x) → (∀ a ∈ allocs, a = true) → w < 0 →
       read_all (pre ++ w :: post) allocs = .ioError) ∧
    (∀ (s : Int) (ss : List Int) (rest : List Bool),
       read_all (s :: ss) (false :: rest) = .ioError) := by
  refine ⟨?_, ?_, ?_⟩
  · intro sched allocs buf0 size0 h
    rw [read_all_call, h]
  · intro pre w post allocs hpos hall hw
    exact read_allGo_neg_read w post hw pre allocs 0 0 hpos hall (by omega)
  · intro s ss rest
    show read_allGo (s :: ss) (false :: rest) 0 0 = .ioError
    rw [read_allGo, if_pos rfl, if_pos (by simp)]

/-- C8 witness for `read_all_error_discards`: a failing first read leaves
the caller's variables at their initial values `some 7` and 42. -/
theorem read_all_error_discards_witness :
    read_all_call [(3 : Int), -1] [true] (some 7) 42 = ⟨-1, some 7, 42⟩ ∧
    read_all ([(3 : Int)] ++ (-1) :: []) [true] = .ioError ∧
    read_all [(9 : Int)] [false] = .ioError := by
  refine ⟨?_, ?_, ?_⟩
  · exact read_all_error_discards.1 [3, -1] [true] (some 7) 42 (by decide)
  · exact read_all_error_discards.2.1 [3] (-1) [] [true]
      (by intro x hx; simp at hx; omega) (by simp) (by decide)
  · exact read_all_error_discards.2.2 9 [] []

/-- C10: `set_ambient_capabilities` attempts its steps in the fixed order
query, set-Effective, set-Inheritable, commit, free, ambient-raise: the
attempted steps always form a prefix of that order, a step is attempted only
if every earlier step succeeded (the first failure returns -1 immediately
with no subsequent step and no rollback), and 0 is returned exactly when
every step succeeded, in which case all steps ran. -/
theorem set_ambient_capabilities_spec (g e i c f r : Bool) :
    ((set_ambient_capabilities g e i c f r).1 = 0 ↔
      (g = true ∧ e = true ∧ i = true ∧ c = true ∧ f = true ∧ r = true)) ∧
    ((set_ambient_capabilities g e i c f r).1 = 0 →
      (set_ambient_capabilities g e i c f r).2 = capOrder) ∧
    (∃ k < 7, (set_ambient_capabilities g e i c f r).2 = capOrder.take k) ∧
    (CapStep.query ∈ (set_ambient_capabilities g e i c f r).2) ∧
    (CapStep.setEff ∈ (set_ambient_capabilities g e i c f r).2 → g = true) ∧
    (CapStep.setInh ∈ (set_ambient_capabilities g e i c f r).2 →
      g = true ∧ e = true) ∧
    (CapStep.commit ∈ (set_ambient_capabilities g e i c f r).2 →
      g = true ∧ e = true ∧ i = true) ∧
    (CapStep.freeState ∈ (set_ambient_capabilities g e i c f r).2 →
      g = true ∧ e = true ∧ i = true ∧ c = true) ∧
    (CapStep.raiseAmbient ∈ (set_ambient_capabilities g e i c f r).2 →
      g = true ∧ e = true ∧ i = true ∧ c = true ∧ f = true) ∧
    ((set_ambient_capabilities g e i c f r).1 = 0 ∨
      (set_ambient_capabilities g e i c f r).1 = -1) := by
  cases g <;> cases e <;> cases i <;> cases c <;> cases f <;> cases r <;> decide

/-- C10 witness for `set_ambient_capabilities_spec`: with every step
succeeding the function returns 0 having attempted all six steps in order. -/
theorem set_ambient_capabilities_spec_witness :
    (set_ambient_capabilities true true true true true true).2 = capOrder :=
  (set_ambient_capabilities_spec true true true true true true).2.1 rfl

end Mahiru
